import Mathlib

/-!
Shallow embedding of the protoavro JSON-Avro decoder
(`encoding/protoavro/decode.go`) and proofs about its specification.

The Go source decodes a dynamically typed JSON/Avro value tree
(`interface\x7b\x7d`) into a protobuf message via the protoreflect API.  The
embedding models:

* the generic value tree `interface\x7b\x7d` as the inductive `J`;
* protobuf runtime values (`protoreflect.Value`) as `PVal`, and a
  `protoreflect.Message` as `Msg` (type name plus committed fields);
* descriptors (`protoreflect.MessageDescriptor` / `FieldDescriptor` /
  `EnumDescriptor`) as `FieldDesc`, `EnumDesc`, and a type environment
  mapping fully-qualified message names to field lists;
* Go errors as `String` (an `fmt.Errorf` chain is string concatenation);
* in-place mutation of the destination message as explicit state passing:
  the message-mutating functions return `Msg × Option String` — the
  (possibly updated) destination together with an optional error, so that
  frame properties ("the destination is unchanged on failure") are real
  statements rather than artifacts of an `Except` encoding.

Functions of the repository that are not among the provided sources
(the scalar coercion helpers, `decodeMap`, `isWKT`, `UnmarshalOptions`)
are modelled from the specification and are marked as such in their doc
comments.  Everything else is translated directly from `decode.go`.
-/

namespace ProtoAvro

/-- Generic value tree: the decoder's `data interface\x7b\x7d` input.  Numbers
keep their Go dynamic type: `i64` is a Go `int64`, `f64`/`f32` are Go
`float64`/`float32` literals carried as opaque bit patterns (the decoder
never computes with them, it only passes them through or rejects them). -/
inductive J where
  | null
  | boolean (b : Bool)
  | i64 (n : Int)
  | f64 (bits : Nat)
  | f32 (bits : Nat)
  | str (s : String)
  | bytes (bs : List Nat)
  | arr (xs : List J)
  | obj (entries : List (String × J))
deriving Repr

/-- Go's `%T` verb on the dynamic values that can appear in the tree. -/
def goTypeName : J → String
  | .null => "<nil>"
  | .boolean _ => "bool"
  | .i64 _ => "int64"
  | .f64 _ => "float64"
  | .f32 _ => "float32"
  | .str _ => "string"
  | .bytes _ => "[]uint8"
  | .arr _ => "[]interface \x7b\x7d"
  | .obj _ => "map[string]interface \x7b\x7d"

/-- Protobuf runtime value (`protoreflect.Value`): scalar, enum number,
message (type name plus committed fields), list, or map. -/
inductive PVal where
  | vint32 (n : Int)
  | vint64 (n : Int)
  | vuint32 (n : Nat)
  | vuint64 (n : Nat)
  | vbool (b : Bool)
  | vstr (s : String)
  | vbytes (bs : List Nat)
  | venum (n : Int)
  | vf64 (bits : Nat)
  | vf32 (bits : Nat)
  | vmsg (tyName : String) (fields : List (Nat × PVal))
  | vlist (xs : List PVal)
  | vmap (entries : List (String × PVal))
deriving Repr

/-- A `protoreflect.Message`: its descriptor's fully-qualified name and the
fields committed so far (field number to value, unset fields absent). -/
structure Msg where
  tyName : String
  fields : List (Nat × PVal)
deriving Repr

/-- Enum descriptor: fully-qualified name and the name-to-number value table
(`f.Enum().Values()`). -/
structure EnumDesc where
  fullName : String
  values : List (String × Int)
deriving Repr

/-- Protobuf field kind tags (`protoreflect.Kind`).  Message/group kinds
carry the nested message type's fully-qualified name; the enum kind carries
the enum descriptor (`f.Enum()`). -/
inductive Kind where
  | kmessage (tyName : String)
  | kgroup (tyName : String)
  | kstring
  | kbool
  | kint32
  | ksfixed32
  | ksint32
  | kint64
  | ksfixed64
  | ksint64
  | kuint32
  | kfixed32
  | kuint64
  | kfixed64
  | kbytes
  | kenum (e : EnumDesc)
  | kdouble
  | kfloat
deriving Repr

/-- Whether a kind is the message/group (embedded message) kind. -/
def Kind.isEmbedded : Kind → Bool
  | .kmessage _ => true
  | .kgroup _ => true
  | _ => false

/-- Field descriptor (`protoreflect.FieldDescriptor`): declared text name,
JSON name, field number, kind, and the `IsList`/`IsMap` cardinality flags.
For map fields, `mapValueKind` is the kind of `f.MapValue()` (map keys in
the Avro-JSON encoding are strings). -/
structure FieldDesc where
  name : String
  jsonName : String
  number : Nat
  kind : Kind
  isList : Bool
  isMap : Bool
  mapValueKind : Kind
deriving Repr

/-- Modelled from the spec: the repository's `ExtraField` entries
(`options.MarshalOptions.ExtraFields`) are not among the provided sources.
Per the spec, the registry carries field names that are schema-known but
intentionally ignored; only the `FieldName` component is consumed here. -/
structure ExtraField where
  fieldName : String
deriving Repr

/-- Modelled from the spec: the repository's `MarshalOptions` type is not
among the provided sources; `decode.go` reads only its `ExtraFields` list. -/
structure MarshalOptions where
  extraFields : List ExtraField
deriving Repr

/-- Modelled from the spec: the repository's `UnmarshalOptions` type is not
among the provided sources; `decode.go` reads only
`options.MarshalOptions.ExtraFields`. -/
structure UnmarshalOptions where
  marshalOptions : MarshalOptions
deriving Repr

/-- Type environment standing for the compiled schema: fully-qualified
message name to its field descriptors (`desc.Fields()`), plus the behavior
of the external well-known-type decoder `decodeWKT`, which `decode.go`
delegates to verbatim and whose body is out of the decoder's scope.  It is
kept as an arbitrary function so every theorem holds for any well-known-type
decoder. -/
structure Ctx where
  env : List (String × List FieldDesc)
  wkt : List (String × J) → Msg → Msg × Option String

/-- Field descriptors of a message type name (`msg.Descriptor().Fields()`). -/
def fieldsOf (ctx : Ctx) (tyName : String) : List FieldDesc :=
  match ctx.env.find? (fun p => p.1 == tyName) with
  | some p => p.2
  | none => []

/-- Modelled from the spec: the repository's `isWKT` predicate is not among
the provided sources.  Per the spec it recognizes, by fully-qualified name,
the well-known wrapper types (timestamp, duration, scalar wrappers). -/
def wktNames : List String :=
  ["google.protobuf.Timestamp", "google.protobuf.Duration",
   "google.protobuf.DoubleValue", "google.protobuf.FloatValue",
   "google.protobuf.Int64Value", "google.protobuf.UInt64Value",
   "google.protobuf.Int32Value", "google.protobuf.UInt32Value",
   "google.protobuf.BoolValue", "google.protobuf.StringValue",
   "google.protobuf.BytesValue"]

/-- Modelled from the spec: well-known-type test by fully-qualified name. -/
def isWKT (name : String) : Bool :=
  wktNames.contains name

/-- Modelled from the spec: the string coercion helper
(`decodeStringLike(data, role)`).  Per the spec it coerces a string-shaped
generic value to a native string and otherwise fails with a message naming
the expected role and the actual shape received. -/
def decodeStringLike (data : J) (role : String) : Except String String :=
  match data with
  | .str s => .ok s
  | other => .error ("expected " ++ role ++ ", got " ++ goTypeName other)

/-- Modelled from the spec: the boolean coercion helper
(`decodeBoolLike(data, role)`). -/
def decodeBoolLike (data : J) (role : String) : Except String Bool :=
  match data with
  | .boolean b => .ok b
  | other => .error ("expected " ++ role ++ ", got " ++ goTypeName other)

/-- Modelled from the spec: the integer coercion helper
(`decodeIntLike(data, role)`); it yields the 64-bit value of an int-shaped
generic value. -/
def decodeIntLike (data : J) (role : String) : Except String Int :=
  match data with
  | .i64 n => .ok n
  | other => .error ("expected " ++ role ++ ", got " ++ goTypeName other)

/-- Modelled from the spec: the bytes coercion helper
(`decodeBytesLike(data, role)`). -/
def decodeBytesLike (data : J) (role : String) : Except String (List Nat) :=
  match data with
  | .bytes bs => .ok bs
  | other => .error ("expected " ++ role ++ ", got " ++ goTypeName other)

/-- Modelled from the spec: the sequence shape-check helper
(`decodeListLike(data, role)`), returning the elements of a sequence-shaped
generic value. -/
def decodeListLike (data : J) (role : String) : Except String (List J) :=
  match data with
  | .arr xs => .ok xs
  | other => .error ("expected " ++ role ++ ", got " ++ goTypeName other)

/-- Go's `int32(i)` conversion from `int64`: two's-complement truncation to
the low 32 bits. -/
def toInt32 (i : Int) : Int :=
  let r := i % 4294967296
  if r < 2147483648 then r else r - 4294967296

/-- Go's `uint32(i)` conversion from `int64`: low 32 bits, unsigned. -/
def toUint32 (i : Int) : Nat :=
  (i % 4294967296).toNat

/-- Go's `uint64(i)` conversion from `int64`: the value reinterpreted as an
unsigned 64-bit integer. -/
def toUint64 (i : Int) : Nat :=
  (i % 18446744073709551616).toNat

/-- Zero value of a field's kind: `protoreflect`'s `val.NewField(f)` for a
singular field and `list.NewElement()` for a list element.  For message
kinds it is a fresh empty message of the field's message type. -/
def newElement (f : FieldDesc) : PVal :=
  match f.kind with
  | .kmessage t => .vmsg t []
  | .kgroup t => .vmsg t []
  | .kstring => .vstr ""
  | .kbool => .vbool false
  | .kint32 | .ksfixed32 | .ksint32 => .vint32 0
  | .kint64 | .ksfixed64 | .ksint64 => .vint64 0
  | .kuint32 | .kfixed32 => .vuint32 0
  | .kuint64 | .kfixed64 => .vuint64 0
  | .kbytes => .vbytes []
  | .kenum _ => .venum 0
  | .kdouble => .vf64 0
  | .kfloat => .vf32 0

/-- The `protoreflect.Value.Message()` accessor on a message-kind value. -/
def asMsg : PVal → Msg
  | .vmsg t fs => ⟨t, fs⟩
  | _ => ⟨"", []⟩

/-- Committed-field update, `val.Set(f, v)`: replace the entry for the field
number if present, else append it. -/
def setFieldList : List (Nat × PVal) → Nat → PVal → List (Nat × PVal)
  | [], n, v => [(n, v)]
  | (k, w) :: rest, n, v =>
      if k == n then (n, v) :: rest else (k, w) :: setFieldList rest n v

/-- `val.Set(f, v)` on a message. -/
def setField (m : Msg) (n : Nat) (v : PVal) : Msg :=
  ⟨m.tyName, setFieldList m.fields n v⟩

/-- Map-container insert with last-write-wins on duplicate keys
(`protoreflect.Map.Set`). -/
def mapInsert : List (String × PVal) → String → PVal → List (String × PVal)
  | [], k, v => [(k, v)]
  | (k', w) :: rest, k, v =>
      if k' == k then (k, v) :: rest else (k', w) :: mapInsert rest k v

/-- The synthetic field descriptor for a map field's value component
(`f.MapValue()`). -/
def mapValueFd (f : FieldDesc) : FieldDesc :=
  ⟨"value", "value", 2, f.mapValueKind, false, false, Kind.kstring⟩

/-- First field whose JSON name matches (`desc.Fields().ByJSONName(name)`). -/
def byJSONName (fields : List FieldDesc) (name : String) : Option FieldDesc :=
  fields.find? (fun f => f.jsonName == name)

/-- First field whose declared text name matches
(`desc.Fields().ByTextName(name)`). -/
def byTextName (fields : List FieldDesc) (name : String) : Option FieldDesc :=
  fields.find? (fun f => f.name == name)

/-- Field resolution (`findField` in `decode.go`): JSON name first, then
text name, then the options' extra-field registry; the Go result pair
`(fd, ok)` is `(some fd, true)` for a schema field, `(none, true)` for a
known-but-ignored extra field, and `(none, false)` for no match. -/
def findField (fields : List FieldDesc) (name : String)
    (options : UnmarshalOptions) : Option FieldDesc × Bool :=
  match byJSONName fields name with
  | some fd => (some fd, true)
  | none =>
    match byTextName fields name with
    | some fd => (some fd, true)
    | none =>
      if options.marshalOptions.extraFields.any
          (fun ef => ef.fieldName == name) then
        (none, true)
      else
        (none, false)

/-- The union-unwrapping test of `decodeMessage`: in Go,
`if msgData, ok := d[fullName]; len(d) == 1 && ok` — for a single-entry map
the lookup succeeds exactly when that entry's key is the full name. -/
def unionLookup (d : List (String × J)) (fullName : String) : Option J :=
  match d with
  | [(k, v)] => if k == fullName then some v else none
  | _ => none

/-- A successful union lookup yields a structurally smaller value; used for
termination of the mutual decoder. -/
theorem unionLookup_some_size (d : List (String × J)) (fullName : String)
    (v : J) (h : unionLookup d fullName = some v) : sizeOf v < sizeOf d := by
  match d with
  | [] => simp [unionLookup] at h
  | [(k, w)] =>
      simp [unionLookup] at h
      obtain ⟨-, h⟩ := h
      subst h
      simp
      omega
  | (k, w) :: e :: rest => simp [unionLookup] at h

/-- A successful sequence shape check yields a structurally smaller list of
elements; used for termination of the mutual decoder. -/
theorem decodeListLike_ok_size (data : J) (role : String) (xs : List J)
    (h : decodeListLike data role = .ok xs) : sizeOf xs < sizeOf data := by
  cases data <;> simp [decodeListLike] at h
  subst h
  simp

mutual

/-- `decodeMessage` from `decode.go`: nil is a no-op; non-maps are a type
error; well-known types delegate to `decodeWKT`; a single-entry map whose
key is the target's fully-qualified name union-unwraps (in Go,
`if msgData, ok := d[string(desc.FullName())]; len(d) == 1 && ok` — for a
single-entry map the lookup succeeds exactly when that entry's key is the
full name); otherwise the entries are iterated.  The returned message is
the (possibly partially) mutated destination. -/
def decodeMessage (ctx : Ctx) (data : J) (msg : Msg)
    (options : UnmarshalOptions) : Msg × Option String :=
  match data with
  | J.null => (msg, none)
  | J.obj d =>
      if isWKT msg.tyName then
        ctx.wkt d msg
      else
        match h : unionLookup d msg.tyName with
        | some msgData => decodeMessage ctx msgData msg options
        | none => decodeFields ctx d msg options
  | other =>
      (msg, some ("expected message encoded as map[string]interface\x7b\x7d, got "
        ++ goTypeName other))
termination_by 4 * sizeOf data
decreasing_by
  · have := unionLookup_some_size d msg.tyName msgData h
    simp_wf
    omega
  · simp_wf
    omega

/-- The `for fieldName, fieldValue := range d` loop of `decodeMessage`:
resolve each name, fail on an unresolved name, skip an ignored extra field,
otherwise decode into the field; the first error aborts, with fields
committed by earlier iterations kept (no rollback). -/
def decodeFields (ctx : Ctx) (entries : List (String × J)) (msg : Msg)
    (options : UnmarshalOptions) : Msg × Option String :=
  match entries with
  | [] => (msg, none)
  | (fieldName, fieldValue) :: rest =>
      match findField (fieldsOf ctx msg.tyName) fieldName options with
      | (_, false) => (msg, some ("unexpected field " ++ fieldName))
      | (none, true) => decodeFields ctx rest msg options
      | (some fd, true) =>
          match decodeField ctx fieldValue msg fd options with
          | (msg', some e) => (msg', some e)
          | (msg', none) => decodeFields ctx rest msg' options
termination_by 4 * sizeOf entries + 1

/-- `decodeField` from `decode.go`: nil leaves the field unset; map and
list fields build a fresh container and commit it with `val.Set` only after
every element decoded; singular fields decode via `decodeFieldKind` into a
fresh `val.NewField(f)` value and commit on success. -/
def decodeField (ctx : Ctx) (data : J) (val : Msg) (f : FieldDesc)
    (options : UnmarshalOptions) : Msg × Option String :=
  match data with
  | J.null => (val, none)
  | other =>
    if f.isMap then
      match decodeMap ctx other f [] options with
      | .error e => (val, some e)
      | .ok mp => (setField val f.number (PVal.vmap mp), none)
    else if f.isList then
      match h : decodeListLike other "array" with
      | .error e => (val, some e)
      | .ok listData =>
          match decodeListElems ctx listData f options with
          | .error e => (val, some e)
          | .ok list => (setField val f.number (PVal.vlist list), none)
    else
      match decodeFieldKind ctx other (newElement f) f options with
      | .error e => (val, some e)
      | .ok fieldValue => (setField val f.number fieldValue, none)
termination_by 4 * sizeOf data + 3
decreasing_by
  all_goals simp_wf
  all_goals try omega
  all_goals have := decodeListLike_ok_size other "array" listData h
  all_goals omega

/-- The element loop of `decodeField`'s list branch: a nil element appends
`list.NewElement()` (the element zero value) at its position; any other
element is decoded by `decodeFieldKind` and appended; the first element
error aborts the loop. -/
def decodeListElems (ctx : Ctx) (els : List J) (f : FieldDesc)
    (options : UnmarshalOptions) : Except String (List PVal) :=
  match els with
  | [] => .ok []
  | J.null :: rest =>
      match decodeListElems ctx rest f options with
      | .error e => .error e
      | .ok l => .ok (newElement f :: l)
  | el :: rest =>
      match decodeFieldKind ctx el (newElement f) f options with
      | .error e => .error e
      | .ok fv =>
          match decodeListElems ctx rest f options with
          | .error e => .error e
          | .ok l => .ok (fv :: l)
termination_by 4 * sizeOf els + 1

/-- Modelled from the spec: the repository's `decodeMap` routine is not
among the provided sources.  Per spec section 4.4 it shape-checks the
generic value as a mapping and, for every key/value pair, produces a typed
key (Avro-JSON map keys are strings) and a typed value per the map's
declared value kind, inserting with last-write-wins; the first failure
aborts. -/
def decodeMap (ctx : Ctx) (data : J) (f : FieldDesc)
    (mp : List (String × PVal)) (options : UnmarshalOptions) :
    Except String (List (String × PVal)) :=
  match data with
  | J.obj entries => decodeMapEntries ctx entries f mp options
  | other => .error ("expected map, got " ++ goTypeName other)
termination_by 4 * sizeOf data + 1

/-- Modelled from the spec: the entry loop of `decodeMap` (see
`decodeMap`); the typed value is produced by the per-kind dispatcher on the
map's value field descriptor. -/
def decodeMapEntries (ctx : Ctx) (entries : List (String × J))
    (f : FieldDesc) (mp : List (String × PVal))
    (options : UnmarshalOptions) : Except String (List (String × PVal)) :=
  match entries with
  | [] => .ok mp
  | (k, v) :: rest =>
      match decodeFieldKind ctx v (newElement (mapValueFd f)) (mapValueFd f)
          options with
      | .error e => .error e
      | .ok tv => decodeMapEntries ctx rest f (mapInsert mp k tv) options
termination_by 4 * sizeOf entries + 1

/-- `decodeFieldKind` from `decode.go`: the per-kind dispatcher.  Its
switch on `f.Kind()` is factored through `decodeKind`, which carries the
scrutinized kind as an explicit parameter (needed for Lean to generate
usable equations); `decodeFieldKind` instantiates it at `f.kind`. -/
def decodeFieldKind (ctx : Ctx) (data : J) (mutable : PVal) (f : FieldDesc)
    (options : UnmarshalOptions) : Except String PVal :=
  decodeKind ctx data mutable f f.kind options
termination_by 4 * sizeOf data + 2

/-- The switch body of `decodeFieldKind`, over the field's kind.  Message
and group kinds recurse into `decodeMessage` on the fresh mutable value's
message and propagate a nested error verbatim; every scalar kind coerces
via its helper and wraps a coercion error as
`"field <name>: <cause>"`; an enum name not present in the value table
falls back to the enum number zero; double and float accept only a native
float literal of the right width.  Go's grouped switch cases
(`case Int32Kind, Sfixed32Kind, Sint32Kind:` and so on) are expanded here
into one case per kind with identical bodies. -/
def decodeKind (ctx : Ctx) (data : J) (mutable : PVal) (f : FieldDesc)
    (k : Kind) (options : UnmarshalOptions) : Except String PVal :=
  match k with
  | .kmessage _ =>
      match decodeMessage ctx data (asMsg mutable) options with
      | (_, some e) => .error e
      | (m', none) => .ok (PVal.vmsg m'.tyName m'.fields)
  | .kgroup _ =>
      match decodeMessage ctx data (asMsg mutable) options with
      | (_, some e) => .error e
      | (m', none) => .ok (PVal.vmsg m'.tyName m'.fields)
  | .kstring =>
      match decodeStringLike data "string" with
      | .error e => .error (("field " ++ f.name ++ ": ") ++ e)
      | .ok s => .ok (PVal.vstr s)
  | .kbool =>
      match decodeBoolLike data "boolean" with
      | .error e => .error (("field " ++ f.name ++ ": ") ++ e)
      | .ok b => .ok (PVal.vbool b)
  | .kint32 =>
      match decodeIntLike data "int" with
      | .error e => .error (("field " ++ f.name ++ ": ") ++ e)
      | .ok i => .ok (PVal.vint32 (toInt32 i))
  | .ksfixed32 =>
      match decodeIntLike data "int" with
      | .error e => .error (("field " ++ f.name ++ ": ") ++ e)
      | .ok i => .ok (PVal.vint32 (toInt32 i))
  | .ksint32 =>
      match decodeIntLike data "int" with
      | .error e => .error (("field " ++ f.name ++ ": ") ++ e)
      | .ok i => .ok (PVal.vint32 (toInt32 i))
  | .kint64 =>
      match decodeIntLike data "long" with
      | .error e => .error (("field " ++ f.name ++ ": ") ++ e)
      | .ok i => .ok (PVal.vint64 i)
  | .ksfixed64 =>
      match decodeIntLike data "long" with
      | .error e => .error (("field " ++ f.name ++ ": ") ++ e)
      | .ok i => .ok (PVal.vint64 i)
  | .ksint64 =>
      match decodeIntLike data "long" with
      | .error e => .error (("field " ++ f.name ++ ": ") ++ e)
      | .ok i => .ok (PVal.vint64 i)
  | .kuint32 =>
      match decodeIntLike data "int" with
      | .error e => .error (("field " ++ f.name ++ ": ") ++ e)
      | .ok i => .ok (PVal.vuint32 (toUint32 i))
  | .kfixed32 =>
      match decodeIntLike data "int" with
      | .error e => .error (("field " ++ f.name ++ ": ") ++ e)
      | .ok i => .ok (PVal.vuint32 (toUint32 i))
  | .kuint64 =>
      match decodeIntLike data "long" with
      | .error e => .error (("field " ++ f.name ++ ": ") ++ e)
      | .ok i => .ok (PVal.vuint64 (toUint64 i))
  | .kfixed64 =>
      match decodeIntLike data "long" with
      | .error e => .error (("field " ++ f.name ++ ": ") ++ e)
      | .ok i => .ok (PVal.vuint64 (toUint64 i))
  | .kbytes =>
      match decodeBytesLike data "bytes" with
      | .error e => .error (("field " ++ f.name ++ ": ") ++ e)
      | .ok bs => .ok (PVal.vbytes bs)
  | .kenum ed =>
      match decodeStringLike data ed.fullName with
      | .error e => .error (("field " ++ f.name ++ ": ") ++ e)
      | .ok s =>
          match ed.values.find? (fun p => p.1 == s) with
          | some p => .ok (PVal.venum p.2)
          | none => .ok (PVal.venum 0)
  | .kdouble =>
      match data with
      | J.f64 bits => .ok (PVal.vf64 bits)
      | other =>
          .error (("field " ++ f.name ++ ": ")
            ++ ("expected float64, got " ++ goTypeName other))
  | .kfloat =>
      match data with
      | J.f32 bits => .ok (PVal.vf32 bits)
      | other =>
          .error (("field " ++ f.name ++ ": ")
            ++ ("expected float32, got " ++ goTypeName other))
termination_by 4 * sizeOf data + 1

end

/-- `decodeJSON` from `decode.go`: the entry point is `decodeMessage` on
the message's reflective view. -/
def decodeJSON (ctx : Ctx) (data : J) (msg : Msg)
    (options : UnmarshalOptions) : Msg × Option String :=
  decodeMessage ctx data msg options

/-- Whether an error string is of the localized form
`"field <name>: <cause>"` for the given field name: its leading characters
are exactly `"field <name>: "`. -/
def fieldWrapped (name e : String) : Bool :=
  ("field " ++ name ++ ": ").data
    == e.data.take ("field " ++ name ++ ": ").data.length

/-- A well-known-type decoder instance that decodes nothing; used only to
instantiate `Ctx` on concrete test inputs whose targets are not well-known
types. -/
def wktTrivial : List (String × J) → Msg → Msg × Option String :=
  fun _ m => (m, none)

/-- Test fixture: a singular int32 field. -/
def fdX : FieldDesc := ⟨"x", "x", 1, Kind.kint32, false, false, Kind.kstring⟩

/-- Test fixture: a repeated int32 field. -/
def fdXs : FieldDesc := ⟨"xs", "xs", 2, Kind.kint32, true, false, Kind.kstring⟩

/-- Test fixture: an enum value table with `RED = 0` and `BLUE = 1`. -/
def edColor : EnumDesc := ⟨"test.Color", [("RED", 0), ("BLUE", 1)]⟩

/-- Test fixture: a singular enum field over `edColor`. -/
def fdColor : FieldDesc :=
  ⟨"color", "color", 3, Kind.kenum edColor, false, false, Kind.kstring⟩

/-- Test fixture: a singular string field. -/
def fdS : FieldDesc := ⟨"s", "s", 4, Kind.kstring, false, false, Kind.kstring⟩

/-- Test fixture: a singular message-kind field of type `test.C`. -/
def fdChild : FieldDesc :=
  ⟨"child", "child", 5, Kind.kmessage "test.C", false, false, Kind.kstring⟩

/-- Test fixture: schema with message type `test.M` (fields `x`, `xs`,
`color`, `s`, `child`) and the empty message type `test.C`. -/
def ctx0 : Ctx :=
  ⟨[("test.M", [fdX, fdXs, fdColor, fdS, fdChild]), ("test.C", [])],
   wktTrivial⟩

/-- Test fixture: schema whose message type `test.M` has no fields. -/
def ctx9 : Ctx := ⟨[("test.M", [])], wktTrivial⟩

/-- Test fixture: an empty destination message of type `test.M`. -/
def msg0 : Msg := ⟨"test.M", []⟩

/-- Test fixture: options with no extra fields. -/
def opts0 : UnmarshalOptions := ⟨⟨[]⟩⟩

/-- Test fixture: options whose extra-field registry holds `test.M`. -/
def opts9 : UnmarshalOptions := ⟨⟨[⟨"test.M"⟩]⟩⟩

/-- Test fixture: options whose extra-field registry holds `ignored`. -/
def optsIg : UnmarshalOptions := ⟨⟨[⟨"ignored"⟩]⟩⟩

/-- Taking the length of the left part of an appended list returns the
left part. -/
theorem take_length_append {α : Type} (l1 l2 : List α) :
    (l1 ++ l2).take l1.length = l1 := by
  induction l1 with
  | nil => simp
  | cons a t ih => simp [ih]

/-- String append concatenates the underlying character lists. -/
theorem string_data_append (a b : String) : (a ++ b).data = a.data ++ b.data := by
  cases a
  cases b
  rfl

/-- Any error string built by the decoder's field wrapping
(`fmt.Errorf` with `"field %s: %w"`) satisfies `fieldWrapped`. -/
theorem fieldWrapped_append (name c : String) :
    fieldWrapped name (("field " ++ name ++ ": ") ++ c) = true := by
  simp only [fieldWrapped, string_data_append, take_length_append,
    beq_self_eq_true]

/-- C8: for every target descriptor and options, `decodeMessage` applied
to a null generic value returns success and performs no write to the
destination message. -/
theorem C8_decodeMessage_null_noop (ctx : Ctx) (msg : Msg)
    (options : UnmarshalOptions) :
    decodeMessage ctx J.null msg options = (msg, none) := by
  simp [decodeMessage]

/-- C10: for every resolved field of every kind, list and map fields
included, `decodeField` applied to a null field value returns success
immediately and leaves the destination message unchanged. -/
theorem C10_decodeField_null_noop (ctx : Ctx) (val : Msg) (f : FieldDesc)
    (options : UnmarshalOptions) :
    decodeField ctx J.null val f options = (val, none) := by
  simp [decodeField]

/-- C1: for every non-well-known target descriptor, `decodeMessage` on a
single-entry mapping whose key is the target type's fully-qualified name
equals `decodeMessage` on the entry's value against the same target — the
same resulting destination message and the same error, so in particular a
successfully decoded inner value yields the same destination message. -/
theorem C1_union_unwrap_transparency (ctx : Ctx) (msg : Msg)
    (options : UnmarshalOptions) (v : J)
    (hw : isWKT msg.tyName = false) :
    decodeMessage ctx (J.obj [(msg.tyName, v)]) msg options
      = decodeMessage ctx v msg options := by
  conv_lhs => rw [decodeMessage]
  simp only [hw, unionLookup, Bool.false_eq_true, if_false]
  split
  next msgData h =>
    simp at h
    subst h
    rfl
  next h =>
    simp at h

/-- Witness for C1 at a concrete schema and input. -/
theorem C1_union_unwrap_transparency_witness :
    isWKT msg0.tyName = false
    ∧ decodeMessage ctx0 (J.obj [("test.M", J.null)]) msg0 opts0
        = decodeMessage ctx0 J.null msg0 opts0 :=
  ⟨by decide, C1_union_unwrap_transparency ctx0 msg0 opts0 J.null (by decide)⟩

/-- C5: an enum-kind field given a string value whose name is absent from
the enum's value table decodes, without error, to the enum's zero value;
a present name decodes to that entry's number. -/
theorem C5_enum_unknown_name_zero (ctx : Ctx) (mutable : PVal)
    (f : FieldDesc) (options : UnmarshalOptions) (ed : EnumDesc) (s : String)
    (hk : f.kind = Kind.kenum ed) :
    (ed.values.find? (fun p => p.1 == s) = none →
      decodeFieldKind ctx (J.str s) mutable f options
        = .ok (PVal.venum 0))
    ∧ (∀ p, ed.values.find? (fun q => q.1 == s) = some p →
      decodeFieldKind ctx (J.str s) mutable f options
        = .ok (PVal.venum p.2)) := by
  constructor
  · intro h
    simp [decodeFieldKind, decodeKind, hk, decodeStringLike, h]
  · intro p h
    simp [decodeFieldKind, decodeKind, hk, decodeStringLike, h]

/-- Witness for C5: `GREEN` is not in the `edColor` table, so the field
decodes to enum number zero (`RED`). -/
theorem C5_enum_unknown_name_zero_witness :
    fdColor.kind = Kind.kenum edColor
    ∧ edColor.values.find? (fun p => p.1 == "GREEN") = none
    ∧ decodeFieldKind ctx0 (J.str "GREEN") (newElement fdColor) fdColor opts0
        = .ok (PVal.venum 0) :=
  ⟨rfl, by decide,
   (C5_enum_unknown_name_zero ctx0 (newElement fdColor) fdColor opts0 edColor
     "GREEN" rfl).1 (by decide)⟩

/-- C7: a 32-bit signed field (int32/sfixed32/sint32) given an int-shaped
value out of 32-bit range decodes without error to the two's-complement
truncation of the value: the result is congruent to the input modulo
2 to the 32 and lies in the signed 32-bit range; in particular 4294967296
decodes to 0 (see the witness). -/
theorem C7_int32_silent_truncation (ctx : Ctx) (mutable : PVal)
    (f : FieldDesc) (options : UnmarshalOptions) (n : Int)
    (hk : f.kind = Kind.kint32 ∨ f.kind = Kind.ksfixed32
      ∨ f.kind = Kind.ksint32)
    (hbig : n < -2147483648 ∨ 2147483648 ≤ n) :
    decodeFieldKind ctx (J.i64 n) mutable f options
      = .ok (PVal.vint32 (toInt32 n))
    ∧ toInt32 n % 4294967296 = n % 4294967296
    ∧ -2147483648 ≤ toInt32 n ∧ toInt32 n < 2147483648 := by
  refine ⟨?_, ?_, ?_, ?_⟩
  · rcases hk with h | h | h <;> simp [decodeFieldKind, decodeKind, h, decodeIntLike]
  all_goals simp only [toInt32]
  all_goals split <;> omega

/-- Witness for C7: 4294967296 in an int32 field truncates to 0. -/
theorem C7_int32_silent_truncation_witness :
    (fdX.kind = Kind.kint32 ∨ fdX.kind = Kind.ksfixed32
      ∨ fdX.kind = Kind.ksint32)
    ∧ ((4294967296 : Int) < -2147483648 ∨ (2147483648 : Int) ≤ 4294967296)
    ∧ decodeFieldKind ctx0 (J.i64 4294967296) (newElement fdX) fdX opts0
        = .ok (PVal.vint32 (toInt32 4294967296))
    ∧ toInt32 4294967296 = 0 :=
  ⟨Or.inl rfl, Or.inr (by decide),
   (C7_int32_silent_truncation ctx0 (newElement fdX) fdX opts0 4294967296
     (Or.inl rfl) (Or.inr (by decide))).1,
   by decide⟩

/-- On any `decodeField` failure the destination message is returned
untouched: every `val.Set` in `decodeField` sits after the error checks. -/
theorem decodeField_error_frame (ctx : Ctx) (data : J) (val : Msg)
    (f : FieldDesc) (options : UnmarshalOptions) (e : String) :
    (decodeField ctx data val f options).2 = some e →
    (decodeField ctx data val f options).1 = val := by
  cases data <;> rw [decodeField] <;> (repeat' split) <;> simp

/-- The destination's type name is never changed by `decodeField`. -/
theorem decodeField_tyName (ctx : Ctx) (data : J) (val : Msg)
    (f : FieldDesc) (options : UnmarshalOptions) :
    (decodeField ctx data val f options).1.tyName = val.tyName := by
  cases data <;> rw [decodeField] <;> (repeat' split) <;> simp [setField]

/-- C3: for a list-typed or map-typed field, if decoding any element fails
then `decodeField` returns the error with the destination message
unchanged — the partially built container is never committed into the
field slot. -/
theorem C3_container_not_committed_on_error (ctx : Ctx) (data : J)
    (val : Msg) (f : FieldDesc) (options : UnmarshalOptions) (e : String)
    (hcont : f.isMap = true ∨ f.isList = true)
    (he : (decodeField ctx data val f options).2 = some e) :
    (decodeField ctx data val f options).1 = val :=
  decodeField_error_frame ctx data val f options e he

/-- A successful list-element loop produces exactly one output element per
input element. -/
theorem decodeListElems_ok_length (ctx : Ctx) (f : FieldDesc)
    (options : UnmarshalOptions) :
    ∀ els out, decodeListElems ctx els f options = .ok out →
      out.length = els.length := by
  intro els
  induction els with
  | nil =>
      intro out h
      rw [decodeListElems] at h
      simp_all
  | cons el rest ih =>
      intro out h
      cases el <;> rw [decodeListElems] at h <;> (repeat' split at h) <;>
        first
          | (simp_all
             done)
          | (injection h with h2
             rw [← h2]
             rename_i heq
             have hl := ih _ heq
             simp [hl])

/-- A null input element yields the element zero value at the same
position of the output list. -/
theorem decodeListElems_null_position (ctx : Ctx) (f : FieldDesc)
    (options : UnmarshalOptions) :
    ∀ pre post out,
      decodeListElems ctx (pre ++ J.null :: post) f options = .ok out →
      out[pre.length]? = some (newElement f) := by
  intro pre
  induction pre with
  | nil =>
      intro post out h
      rw [List.nil_append] at h
      rw [decodeListElems] at h
      (repeat' split at h) <;>
        first
          | (simp_all
             done)
          | (injection h with h2
             rw [← h2]
             simp)
  | cons el pre' ih =>
      intro post out h
      rw [List.cons_append] at h
      cases el <;> rw [decodeListElems] at h <;> (repeat' split at h) <;>
        first
          | (simp_all
             done)
          | (injection h with h2
             rw [← h2]
             rename_i heq
             have hp := ih _ _ heq
             simp [hp])

/-- C6: a list-typed field given a sequence decodes elements in input
order, committing the full container; a null element contributes the
element type's zero value at its own position (the output has exactly one
element per input element, the null slot holding the zero value). -/
theorem C6_list_null_element_zero_value (ctx : Ctx) (val : Msg)
    (f : FieldDesc) (options : UnmarshalOptions) (pre post : List J)
    (out : List PVal)
    (hmap : f.isMap = false) (hlist : f.isList = true)
    (h : decodeListElems ctx (pre ++ J.null :: post) f options = .ok out) :
    decodeField ctx (J.arr (pre ++ J.null :: post)) val f options
      = (setField val f.number (PVal.vlist out), none)
    ∧ out.length = pre.length + 1 + post.length
    ∧ out[pre.length]? = some (newElement f) := by
  refine ⟨?_, ?_, ?_⟩
  · rw [decodeField]
    · simp only [hmap, hlist, Bool.false_eq_true, if_false, if_true]
      split
      next e h' => simp [decodeListLike] at h'
      next listData h' =>
        simp [decodeListLike] at h'
        subst h'
        rw [h]
    · simp
  · have hlen := decodeListElems_ok_length ctx f options _ _ h
    simp at hlen
    omega
  · exact decodeListElems_null_position ctx f options pre post out h

/-- Witness for C3: a failing element (a string in an int32 list) yields
the element's coercion error and an untouched destination. -/
theorem C3_container_not_committed_on_error_witness :
    (fdXs.isMap = true ∨ fdXs.isList = true)
    ∧ (decodeField ctx0 (J.arr [J.str "a"]) msg0 fdXs opts0).2
        = some "field xs: expected int, got string"
    ∧ (decodeField ctx0 (J.arr [J.str "a"]) msg0 fdXs opts0).1 = msg0 :=
  ⟨Or.inr rfl,
   by simp [decodeField, decodeListElems, decodeFieldKind, decodeKind, decodeListLike,
        decodeIntLike, fdXs, goTypeName],
   C3_container_not_committed_on_error ctx0 (J.arr [J.str "a"]) msg0 fdXs
     opts0 "field xs: expected int, got string" (Or.inr rfl)
     (by simp [decodeField, decodeListElems, decodeFieldKind, decodeKind, decodeListLike,
        decodeIntLike, fdXs, goTypeName])⟩

/-- Witness for C6: `[1, null, 3]` into an int32 list commits
`[1, 0, 3]`, the null slot becoming the element zero value. -/
theorem C6_list_null_element_zero_value_witness :
    fdXs.isMap = false ∧ fdXs.isList = true
    ∧ decodeListElems ctx0 ([J.i64 1] ++ J.null :: [J.i64 3]) fdXs opts0
        = .ok [PVal.vint32 1, PVal.vint32 0, PVal.vint32 3]
    ∧ decodeField ctx0 (J.arr ([J.i64 1] ++ J.null :: [J.i64 3])) msg0 fdXs
        opts0
        = (setField msg0 fdXs.number
            (PVal.vlist [PVal.vint32 1, PVal.vint32 0, PVal.vint32 3]), none)
    ∧ [PVal.vint32 1, PVal.vint32 0, PVal.vint32 3].length = 3
    ∧ [PVal.vint32 1, PVal.vint32 0, PVal.vint32 3][1]?
        = some (newElement fdXs) := by
  have h : decodeListElems ctx0 ([J.i64 1] ++ J.null :: [J.i64 3]) fdXs opts0
      = .ok [PVal.vint32 1, PVal.vint32 0, PVal.vint32 3] := by
    simp [decodeListElems, decodeFieldKind, decodeKind, decodeIntLike, fdXs, newElement,
      toInt32]
  have main := C6_list_null_element_zero_value ctx0 msg0 fdXs opts0
    [J.i64 1] [J.i64 3] _ rfl rfl h
  exact ⟨rfl, rfl, h, main.1, by decide, main.2.2⟩

/-- C2 (amended): every failing per-field decode of a non-message kind
(string, boolean, the integer kinds, bytes, enum, double, float) returns
an error of the localized form `"field <name>: <cause>"`; message/group
kinds are excluded because their nested errors propagate without the
wrapper (see the counterexample). -/
theorem C2_scalar_coercion_errors_field_wrapped (ctx : Ctx) (data : J)
    (mutable : PVal) (f : FieldDesc) (options : UnmarshalOptions)
    (e : String)
    (hk : f.kind.isEmbedded = false)
    (he : decodeFieldKind ctx data mutable f options = .error e) :
    fieldWrapped f.name e = true := by
  cases hfk : f.kind <;>
    first
      | (rw [hfk] at hk
         simp [Kind.isEmbedded] at hk
         done)
      | (cases data <;>
         simp only [decodeFieldKind, hfk, decodeKind] at he <;>
         (repeat' split at he) <;>
           first
             | (injection he with he2
                rw [← he2]
                exact fieldWrapped_append f.name _)
             | injection he)

/-- C2 counterexample: a message-kind field (`child`) whose nested decode
fails propagates the nested error to the top-level `decodeMessage` without
the `"field child: "` wrapper, contradicting the claim that the wrapping
holds for message/group kinds as well. -/
theorem C2_message_error_not_wrapped_counterexample :
    decodeMessage ctx0 (J.obj [("child", J.i64 42)]) msg0 opts0
      = (msg0,
         some "expected message encoded as map[string]interface\x7b\x7d, got int64")
    ∧ fieldWrapped "child"
        "expected message encoded as map[string]interface\x7b\x7d, got int64"
        = false := by
  constructor
  · simp [decodeMessage, decodeFields, decodeField, decodeFieldKind,
      decodeKind, unionLookup, isWKT, wktNames, fieldsOf, findField, byJSONName,
      byTextName, ctx0, msg0, opts0, fdX, fdXs, fdColor, fdS, fdChild,
      asMsg, goTypeName, newElement]
  · decide

/-- Witness for the amended C2 at a concrete failing string field. -/
theorem C2_scalar_coercion_errors_field_wrapped_witness :
    fdS.kind.isEmbedded = false
    ∧ decodeFieldKind ctx0 (J.i64 7) (newElement fdS) fdS opts0
        = .error "field s: expected string, got int64"
    ∧ fieldWrapped "s" "field s: expected string, got int64" = true :=
  ⟨rfl,
   by simp [decodeFieldKind, decodeKind, decodeStringLike, fdS, goTypeName],
   C2_scalar_coercion_errors_field_wrapped ctx0 (J.i64 7) (newElement fdS)
     fdS opts0 _ rfl
     (by simp [decodeFieldKind, decodeKind, decodeStringLike, fdS, goTypeName])⟩

/-- If some entry of the iterated mapping has a name that resolves to
nothing (no schema field by JSON or text name, no extra-field entry), the
field iteration returns an error. -/
theorem decodeFields_unresolved (ctx : Ctx) (options : UnmarshalOptions)
    (name : String) (v : J) :
    ∀ (entries : List (String × J)) (m : Msg),
      (name, v) ∈ entries →
      findField (fieldsOf ctx m.tyName) name options = (none, false) →
      (decodeFields ctx entries m options).2 ≠ none := by
  intro entries
  induction entries with
  | nil =>
      intro m hmem hf
      simp at hmem
  | cons e rest ih =>
      intro m hmem hf
      obtain ⟨n0, v0⟩ := e
      rw [decodeFields]
      split
      next => simp
      next hff =>
        cases hmem with
        | head =>
            rw [hf] at hff
            simp at hff
        | tail _ hmem2 =>
            exact ih m hmem2 hf
      next fd hff =>
        split
        next m' e0 heq2 => simp
        next m' heq2 =>
          cases hmem with
          | head =>
              rw [hf] at hff
              simp at hff
          | tail _ hmem2 =>
              have hty : m'.tyName = m.tyName := by
                have h1 := decodeField_tyName ctx v0 m fd options
                rw [heq2] at h1
                exact h1
              refine ih m' hmem2 ?_
              rw [hty]
              exact hf

/-- C4 (amended): when the target is not a well-known type and the mapping
is not the single-entry union form (which union-unwraps instead, see the
counterexample), a mapping containing a key that resolves to no schema
field and no extra-field entry makes `decodeMessage` fail; when that key
is the first one reached by the iteration, the error is the unknown-field
error naming it. -/
theorem C4_unresolved_name_fails (ctx : Ctx) (msg : Msg)
    (options : UnmarshalOptions) (entries : List (String × J))
    (name : String) (v : J)
    (hw : isWKT msg.tyName = false)
    (hu : unionLookup entries msg.tyName = none)
    (hmem : (name, v) ∈ entries)
    (hf : findField (fieldsOf ctx msg.tyName) name options = (none, false)) :
    (decodeMessage ctx (J.obj entries) msg options).2 ≠ none
    ∧ (entries.head? = some (name, v) →
        decodeMessage ctx (J.obj entries) msg options
          = (msg, some ("unexpected field " ++ name))) := by
  have hun : decodeMessage ctx (J.obj entries) msg options
      = decodeFields ctx entries msg options := by
    rw [decodeMessage]
    simp only [hw, Bool.false_eq_true, if_false]
    split
    next msgData h =>
      rw [hu] at h
      exact absurd h (by simp)
    next => rfl
  constructor
  · rw [hun]
    exact decodeFields_unresolved ctx options name v entries msg hmem hf
  · intro hh
    obtain ⟨tail, rfl⟩ : ∃ tail, entries = (name, v) :: tail := by
      cases entries with
      | nil => simp at hh
      | cons a t =>
          simp at hh
          exact ⟨t, by rw [hh]⟩
    rw [hun]
    simp only [decodeFields, hf]

/-- C4 counterexample: the key `test.M` resolves to no schema field and no
extra-field entry, yet the single-entry mapping keyed by the target's
fully-qualified name union-unwraps and decodes successfully instead of
failing with an unknown-field error. -/
theorem C4_union_key_not_unknown_counterexample :
    findField (fieldsOf ctx0 "test.M") "test.M" opts0 = (none, false)
    ∧ decodeMessage ctx0 (J.obj [("test.M", J.null)]) msg0 opts0
        = (msg0, none) := by
  constructor
  · rfl
  · simp [decodeMessage, unionLookup, isWKT, wktNames, ctx0, msg0, opts0]

/-- Witness for the amended C4 at a concrete unknown key. -/
theorem C4_unresolved_name_fails_witness :
    isWKT msg0.tyName = false
    ∧ unionLookup [("bogus", J.i64 1)] msg0.tyName = none
    ∧ ("bogus", J.i64 1) ∈ [("bogus", J.i64 1)]
    ∧ findField (fieldsOf ctx0 msg0.tyName) "bogus" opts0 = (none, false)
    ∧ (decodeMessage ctx0 (J.obj [("bogus", J.i64 1)]) msg0 opts0).2 ≠ none
    ∧ decodeMessage ctx0 (J.obj [("bogus", J.i64 1)]) msg0 opts0
        = (msg0, some ("unexpected field " ++ "bogus")) := by
  have main := C4_unresolved_name_fails ctx0 msg0 opts0 [("bogus", J.i64 1)]
    "bogus" (J.i64 1) rfl rfl (List.mem_singleton.mpr rfl) rfl
  exact ⟨rfl, rfl, List.mem_singleton.mpr rfl, rfl, main.1, main.2 rfl⟩

/-- An entry whose name resolves to an ignored extra field contributes
nothing to the field iteration: removing it gives the same result. -/
theorem decodeFields_skip_ignored (ctx : Ctx) (options : UnmarshalOptions)
    (name : String) (v : J) (post : List (String × J)) (T : String)
    (hf : findField (fieldsOf ctx T) name options = (none, true)) :
    ∀ (pre : List (String × J)) (m : Msg), m.tyName = T →
      decodeFields ctx (pre ++ (name, v) :: post) m options
        = decodeFields ctx (pre ++ post) m options := by
  intro pre
  induction pre with
  | nil =>
      intro m hty
      rw [List.nil_append, List.nil_append]
      conv_lhs => rw [decodeFields]
      simp only [hty, hf]
  | cons e pre2 ih =>
      intro m hty
      obtain ⟨n0, v0⟩ := e
      rw [List.cons_append, List.cons_append]
      rcases hff : findField (fieldsOf ctx m.tyName) n0 options with ⟨fd?, ok⟩
      cases fd? with
      | none =>
          cases ok with
          | false => simp only [decodeFields, hff]
          | true =>
              simp only [decodeFields, hff]
              exact ih m hty
      | some fd =>
          cases ok with
          | false => simp only [decodeFields, hff]
          | true =>
              simp only [decodeFields, hff]
              rcases hdf : decodeField ctx v0 m fd options with ⟨m', err?⟩
              cases err? with
              | some e0 => rfl
              | none =>
                  have hty2 : m'.tyName = T := by
                    have h1 := decodeField_tyName ctx v0 m fd options
                    rw [hdf] at h1
                    rw [h1, hty]
                  exact ih m' hty2

/-- C9 (amended): during `decodeMessage`'s field iteration (the mapping is
past the union-unwrap check; see the counterexample for the excluded
single-entry union form), an entry whose key matches no schema field by
JSON or text name but equals the `FieldName` of an extra-field entry in
the options is resolved as ignored (resolution does not fail) and is
skipped: the iteration result equals that of the mapping without the
entry, so its value is dropped and no field is written for it. -/
theorem C9_extra_field_entry_skipped (ctx : Ctx) (msg : Msg)
    (options : UnmarshalOptions) (pre post : List (String × J))
    (name : String) (v : J)
    (hj : byJSONName (fieldsOf ctx msg.tyName) name = none)
    (ht : byTextName (fieldsOf ctx msg.tyName) name = none)
    (he : options.marshalOptions.extraFields.any
        (fun ef => ef.fieldName == name) = true) :
    findField (fieldsOf ctx msg.tyName) name options = (none, true)
    ∧ decodeFields ctx (pre ++ (name, v) :: post) msg options
        = decodeFields ctx (pre ++ post) msg options := by
  have hf : findField (fieldsOf ctx msg.tyName) name options
      = (none, true) := by
    simp [findField, hj, ht, he]
  exact ⟨hf,
    decodeFields_skip_ignored ctx options name v post msg.tyName hf pre msg
      rfl⟩

/-- C9 counterexample: with a field-less target `test.M` and an
extra-field entry named `test.M`, the single-entry mapping keyed by
`test.M` is not skipped: union unwrapping takes precedence, the entry's
value is recursed into, and the decode fails on the inner unknown field
instead of succeeding with the entry dropped. -/
theorem C9_union_key_not_skipped_counterexample :
    byJSONName (fieldsOf ctx9 "test.M") "test.M" = none
    ∧ byTextName (fieldsOf ctx9 "test.M") "test.M" = none
    ∧ opts9.marshalOptions.extraFields.any
        (fun ef => ef.fieldName == "test.M") = true
    ∧ decodeMessage ctx9 (J.obj [("test.M", J.obj [("zzz", J.null)])])
        ⟨"test.M", []⟩ opts9
        = (⟨"test.M", []⟩, some "unexpected field zzz") := by
  refine ⟨rfl, rfl, rfl, ?_⟩
  simp [decodeMessage, decodeFields, unionLookup, isWKT, wktNames, fieldsOf,
    findField, byJSONName, byTextName, ctx9, opts9]

/-- Witness for the amended C9 at a concrete ignored entry. -/
theorem C9_extra_field_entry_skipped_witness :
    byJSONName (fieldsOf ctx0 msg0.tyName) "ignored" = none
    ∧ byTextName (fieldsOf ctx0 msg0.tyName) "ignored" = none
    ∧ optsIg.marshalOptions.extraFields.any
        (fun ef => ef.fieldName == "ignored") = true
    ∧ findField (fieldsOf ctx0 msg0.tyName) "ignored" optsIg = (none, true)
    ∧ decodeFields ctx0
        ([("x", J.i64 1)] ++ ("ignored", J.boolean true) :: []) msg0 optsIg
        = decodeFields ctx0 ([("x", J.i64 1)] ++ []) msg0 optsIg := by
  have main := C9_extra_field_entry_skipped ctx0 msg0 optsIg
    [("x", J.i64 1)] [] "ignored" (J.boolean true) rfl rfl rfl
  exact ⟨rfl, rfl, rfl, main.1, main.2⟩

end ProtoAvro
